import Mathlib

/-!
Verification of the advisor-directory extractor (`src/app.py`).

The Python source is shallowly embedded: every Python string operation used
by the claims (regex character classes, `str.strip`, `str.split`, `str.lower`,
regex search/findall for the e-mail and phone patterns, URL parsing) is
translated to an executable Lean function over `List Char` / `String`, and
the pipeline functions (`clean_person_name`, `is_valid_person_name`,
`canon_name`, `is_likely_role`, `td_extract_people_from_meet_page`,
`post_process_directory`, `find_best_link`, `polite_get`, the discovery and
build loops) are translated on top of them.
-/

namespace DataCollector

/-! ## Python character-level primitives -/

/-- Python whitespace (the set recognised by `str.strip`, `str.split` and the
regex class `\s` on `str` patterns). -/
def pyIsSpace (c : Char) : Bool :=
  let n := c.toNat
  decide ((0x09 ≤ n ∧ n ≤ 0x0D) ∨ n = 0x20 ∨ (0x1C ≤ n ∧ n ≤ 0x1F) ∨ n = 0x85 ∨
    n = 0xA0 ∨ n = 0x1680 ∨ (0x2000 ≤ n ∧ n ≤ 0x200A) ∨ n = 0x2028 ∨ n = 0x2029 ∨
    n = 0x202F ∨ n = 0x205F ∨ n = 0x3000)

/-- ASCII letter (regex `[A-Za-z]`). -/
def isAsciiAlpha (c : Char) : Bool :=
  decide (('A' ≤ c ∧ c ≤ 'Z') ∨ ('a' ≤ c ∧ c ≤ 'z'))

/-- ASCII digit (regex `\d` on the inputs this program sees). -/
def isAsciiDigit (c : Char) : Bool :=
  decide ('0' ≤ c ∧ c ≤ '9')

/-- Regex range `À-ÿ` (code points 0xC0 to 0xFF, by code point as in Python). -/
def isLatin1Letter (c : Char) : Bool :=
  decide (0xC0 ≤ c.toNat ∧ c.toNat ≤ 0xFF)

/-- Regex range `A-ZÀ-Ý` used by the capitalised-token check. -/
def isUpperOrLatin1Upper (c : Char) : Bool :=
  decide (('A' ≤ c ∧ c ≤ 'Z') ∨ (0xC0 ≤ c.toNat ∧ c.toNat ≤ 0xDD))

/-- Python `str.lower` restricted to ASCII and Latin-1 (the character set that
this program's regexes let through). `×` (0xD7) has no lowercase form. -/
def pyLowerChar (c : Char) : Char :=
  if ('A' ≤ c ∧ c ≤ 'Z') then Char.ofNat (c.toNat + 32)
  else if (0xC0 ≤ c.toNat ∧ c.toNat ≤ 0xDE ∧ c.toNat ≠ 0xD7) then Char.ofNat (c.toNat + 32)
  else c

/-! ## Python string helpers -/

/-- Strip the given character set from both ends (`str.strip(chars)`). -/
def stripBoth (p : Char → Bool) (l : List Char) : List Char :=
  ((l.dropWhile p).reverse.dropWhile p).reverse

/-- Python `str.strip()` (whitespace). -/
def pyStrip (s : String) : String :=
  String.mk (stripBoth pyIsSpace s.data)

/-- Python `str.strip(chars)` for an explicit character list. -/
def pyStripChars (cs : List Char) (s : String) : String :=
  String.mk (stripBoth (fun c => c ∈ cs) s.data)

/-- Python `str.lower` (ASCII + Latin-1). -/
def pyLowerStr (s : String) : String :=
  String.mk (s.data.map pyLowerChar)

/-- Maximal runs of characters satisfying `p` (regex `findall` of `[class]+`). -/
def runsOf (p : Char → Bool) : List Char → List (List Char)
  | [] => []
  | c :: rest =>
    let rs := runsOf p rest
    if p c then
      match rest, rs with
      | d :: _, r :: rs2 => if p d then (c :: r) :: rs2 else [c] :: rs
      | d :: _, [] => if p d then [[c]] else [[c]]
      | [], _ => [[c]]
    else rs

/-- Python `str.split()` with no argument: maximal non-whitespace runs. -/
def pySplit (s : String) : List String :=
  (runsOf (fun c => ¬ pyIsSpace c) s.data).map String.mk

/-- Python `s.split(",", 1)[0]`. -/
def takeBeforeComma (s : String) : String :=
  String.mk (s.data.takeWhile (· ≠ ','))

/-- Python `s.split(";")[0]`. -/
def takeBeforeSemicolon (s : String) : String :=
  String.mk (s.data.takeWhile (· ≠ ';'))

/-- Python `sep.join(l)`. -/
def joinSep (sep : String) : List String → String
  | [] => ""
  | [x] => x
  | x :: xs => x ++ sep ++ joinSep sep xs

/-- Order-preserving de-duplication keeping first occurrences
(Python `dict.fromkeys`). -/
def dedupFirstAux [DecidableEq α] (seen : List α) : List α → List α
  | [] => []
  | x :: xs => if x ∈ seen then dedupFirstAux seen xs else x :: dedupFirstAux (x :: seen) xs

def dedupFirst [DecidableEq α] (l : List α) : List α :=
  dedupFirstAux [] l

/-- Regex `re.sub(r"\s+", " ", s)`: every whitespace run becomes one space. -/
def collapseAllWsAux : Bool → List Char → List Char
  | _, [] => []
  | inRun, c :: rest =>
    if pyIsSpace c then
      if inRun then collapseAllWsAux true rest else ' ' :: collapseAllWsAux true rest
    else c :: collapseAllWsAux false rest

def collapseAllWs (s : String) : String :=
  String.mk (collapseAllWsAux false s.data)

/-- Regex `re.sub(r"\s{2,}", " ", s)`: whitespace runs of length at least two
become one space; a lone whitespace character is kept as is. -/
def collapseWs2Aux : List Char → Bool → List Char
  | [], _ => []
  | c :: rest, true =>
    if pyIsSpace c then collapseWs2Aux rest true else c :: collapseWs2Aux rest false
  | c :: rest, false =>
    if pyIsSpace c then
      match rest with
      | [] => [c]
      | d :: _ =>
        if pyIsSpace d then ' ' :: collapseWs2Aux rest true else c :: collapseWs2Aux rest false
    else c :: collapseWs2Aux rest false

def collapseWs2 (s : String) : String :=
  String.mk (collapseWs2Aux s.data false)

/-- Regex `re.sub(r"\([^)]*\)", "", s)`: delete parenthesised chunks; an
unmatched opening parenthesis is kept verbatim. The optional buffer holds the
characters seen since an opening parenthesis, in reverse. -/
def removeParensAux : Option (List Char) → List Char → List Char
  | none, [] => []
  | none, c :: rest =>
    if c = '(' then removeParensAux (some []) rest else c :: removeParensAux none rest
  | some buf, [] => '(' :: buf.reverse
  | some buf, c :: rest =>
    if c = ')' then removeParensAux none rest else removeParensAux (some (c :: buf)) rest

def removeParens (s : String) : String :=
  String.mk (removeParensAux none s.data)

/-! ## Vocabulary constants (`BANNED_WORDS`, `PARTICLES`, `ROLE_WORDS`,
`JUNK_PHRASES`, TD markers) -/

def BANNED_WORDS : List String :=
  ["contact", "communiquer", "communique", "contactez", "nous", "joindre",
   "approach", "commitment", "services", "service", "produits", "product",
   "planning", "planification", "patrimoine",
   "privabanque", "bio", "biographie", "team", "accueil", "home",
   "wealth", "investment", "community", "partners", "partner",
   "successoraux", "fiduciaires", "fondée", "founded", "savoir", "plus",
   "visitez", "visit",
   "email", "call", "connect", "discovery", "process", "additional",
   "specialist", "specialists"]

def PARTICLES : List String :=
  ["de", "du", "des", "la", "le", "da", "di", "del", "della", "van", "von",
   "der", "den", "st", "ste", "saint", "sainte", "mc", "mac", "o\x27"]

def ROLE_WORDS : List String :=
  ["senior", "branch", "administrator", "admin", "assistant", "associate",
   "advisor", "adviser", "manager", "director", "president", "vp", "vice",
   "consultant", "specialist", "partner", "investment", "portfolio",
   "financial", "wealth", "planner", "planning",
   "conseiller", "conseillère", "placement", "gestionnaire", "directeur",
   "président", "adjointe", "adjoint",
   "client", "service", "representative", "représentant", "représentante"]

def JUNK_PHRASES : List String :=
  ["our branch team", "notre équipe de succursale", "our team", "notre équipe",
   "email us", "call us", "contact us", "let\x27s connect", "lets connect",
   "additional td specialists", "a unique discovery process", "discovery process"]

def TD_STOP_MARKERS : List String :=
  ["Additional TD Specialists", "Spécialistes TD additionnels", "Additional TD specialists"]

def TD_SOCIAL_MARKERS : List String :=
  ["social links", "liens sociaux"]

/-! ## Name cleaning / validation (`clean_person_name`, `is_valid_person_name`,
`canon_name`) -/

/-- `clean_person_name` from the source: nbsp and curly apostrophe
normalisation, parenthetical removal, strip, cut at the first comma, keep only
`[A-Za-zÀ-ÿ\-\s'\.]`, collapse whitespace runs of length two or more, and
strip `" -–—|"` from both ends. -/
def clean_person_name (raw : String) : String :=
  let s := String.mk (raw.data.map (fun c => if c = '\xA0' then ' ' else if c = '’' then '\x27' else c))
  let s := removeParens s
  let s := pyStrip s
  let s := if (',') ∈ s.data then pyStrip (takeBeforeComma s) else s
  let s := String.mk (s.data.filter (fun c =>
    isAsciiAlpha c ∨ isLatin1Letter c ∨ c = '-' ∨ pyIsSpace c ∨ c = '\x27' ∨ c = '.'))
  pyStripChars [' ', '-', '–', '—', '|'] (collapseWs2 s)

/-- The per-token loop of `is_valid_person_name`: skip particles, count
capitalised tokens, fail on an uncapitalised non-particle token. -/
def validTokenLoop : List String → Nat → Option Nat
  | [], caps => some caps
  | t :: ts, caps =>
    let tl := pyStripChars ['.'] (pyLowerStr t)
    if tl ∈ PARTICLES then validTokenLoop ts caps
    else
      match t.data with
      | [] => none
      | c :: _ => if isUpperOrLatin1Upper c then validTokenLoop ts (caps + 1) else none

/-- `is_valid_person_name` from the source. -/
def is_valid_person_name (raw : String) : Bool :=
  let s := clean_person_name raw
  if s = "" ∨ s.data.any isAsciiDigit then false
  else if pyStrip (pyLowerStr s) ∈ JUNK_PHRASES then false
  else
    let tokens := pySplit s
    if tokens.length < 2 ∨ tokens.length > 6 then false
    else
      let low_tokens := tokens.map (fun t => pyStripChars ['.'] (pyLowerStr t))
      if low_tokens.any (· ∈ BANNED_WORDS) then false
      else
        match validTokenLoop tokens 0 with
        | none => false
        | some caps => caps ≥ 2

/-- `canon_name` from the source: `re.sub(r"[^a-z]+", "", clean.lower())`. -/
def canon_name (raw : String) : String :=
  String.mk ((pyLowerStr (clean_person_name raw)).data.filter (fun c => decide ('a' ≤ c ∧ c ≤ 'z')))

/-- The private `_canon` helper used by the role classifier. -/
def roleCanon (s : String) : String :=
  String.mk ((pyLowerStr s).data.filter (fun c => decide ('a' ≤ c ∧ c ≤ 'z')))

/-! ## The e-mail regex `[A-Z0-9._%+\-]+@[A-Z0-9.\-]+\.[A-Z]{2,}` (re.I) -/

def isEmailLocalChar (c : Char) : Bool :=
  isAsciiAlpha c ∨ isAsciiDigit c ∨ c = '.' ∨ c = '_' ∨ c = '%' ∨ c = '+' ∨ c = '-'

def isEmailDomainChar (c : Char) : Bool :=
  isAsciiAlpha c ∨ isAsciiDigit c ∨ c = '.' ∨ c = '-'

/-- Backtracking step for the domain part: given the maximal run `run` of
domain characters after `@`, find the largest split `run = D ++ "." ++ L ++ _`
with `D` nonempty and `L` at least two letters (greedy `[A-Z0-9.\-]+` then
backtracking to satisfy `\.[A-Z]{2,}`). Returns the matched domain characters
and the number of characters of `run` consumed. -/
def emailDomainSplit (run : List Char) : Option (List Char × Nat) :=
  (List.range run.length).reverse.findSome? (fun d =>
    if d = 0 then none
    else if (run.drop d).head? = some '.' then
      let letters := (run.drop (d + 1)).takeWhile isAsciiAlpha
      if letters.length ≥ 2 then some (run.take d ++ '.' :: letters, d + 1 + letters.length)
      else none
    else none)

/-- Try to match the e-mail regex anchored at the start of `l`. Returns the
match and the remaining characters after it. -/
def emailMatchAt (l : List Char) : Option (List Char × List Char) :=
  let localPart := l.takeWhile isEmailLocalChar
  if localPart.isEmpty then none
  else
    match l.drop localPart.length with
    | '@' :: rest =>
      let run := rest.takeWhile isEmailDomainChar
      match emailDomainSplit run with
      | some (dom, used) => some (localPart ++ '@' :: dom, rest.drop used)
      | none => none
    | _ => none

/-- `EMAIL_RE.findall`: left-to-right scan, continuing after each match.
`fuel` bounds the recursion and is always instantiated to the input length. -/
def emailFindAllAux (fuel : Nat) (l : List Char) : List String :=
  match fuel with
  | 0 => []
  | fuel + 1 =>
    match l with
    | [] => []
    | c :: rest =>
      match emailMatchAt (c :: rest) with
      | some (m, after) => String.mk m :: emailFindAllAux fuel after
      | none => emailFindAllAux fuel rest

def emailFindAll (s : String) : List String :=
  emailFindAllAux s.data.length s.data

/-- `EMAIL_RE.search` viewed as a Boolean. -/
def emailSearchAux (fuel : Nat) (l : List Char) : Bool :=
  match fuel with
  | 0 => false
  | fuel + 1 =>
    match l with
    | [] => false
    | c :: rest =>
      match emailMatchAt (c :: rest) with
      | some _ => true
      | none => emailSearchAux fuel rest

def emailSearch (s : String) : Bool :=
  emailSearchAux s.data.length s.data

/-! ## The phone regex `(\+?\d[\d\-\s().]{7,}\d)` -/

def isPhoneBodyChar (c : Char) : Bool :=
  isAsciiDigit c ∨ c = '-' ∨ pyIsSpace c ∨ c = '(' ∨ c = ')' ∨ c = '.'

/-- Find the largest index `j ≥ 7` in `run` holding a digit (the backtracking
of greedy `[\d\-\s().]{7,}` followed by `\d`). -/
def phoneBodySplit (run : List Char) : Option Nat :=
  (List.range run.length).reverse.findSome? (fun j =>
    if j ≥ 7 ∧ (run.drop j).head?.any isAsciiDigit then some j else none)

/-- Try to match the phone regex anchored at the start of `l`. -/
def phoneMatchAt (l : List Char) : Option (List Char × List Char) :=
  let core := fun (l2 : List Char) (plus : Bool) =>
    match l2 with
    | d :: rest =>
      if isAsciiDigit d then
        let run := rest.takeWhile isPhoneBodyChar
        match phoneBodySplit run with
        | some j =>
          let m := (if plus then ['+'] else []) ++ d :: run.take (j + 1)
          some (m, rest.drop (j + 1))
        | none => none
      else none
    | [] => none
  match l with
  | '+' :: rest =>
    match core rest true with
    | some r => some r
    | none => core l false
  | _ => core l false

def phoneFindAllAux (fuel : Nat) (l : List Char) : List String :=
  match fuel with
  | 0 => []
  | fuel + 1 =>
    match l with
    | [] => []
    | c :: rest =>
      match phoneMatchAt (c :: rest) with
      | some (m, after) => String.mk m :: phoneFindAllAux fuel after
      | none => phoneFindAllAux fuel rest

def phoneFindAll (s : String) : List String :=
  phoneFindAllAux s.data.length s.data

def phoneSearchAux (fuel : Nat) (l : List Char) : Bool :=
  match fuel with
  | 0 => false
  | fuel + 1 =>
    match l with
    | [] => false
    | c :: rest =>
      match phoneMatchAt (c :: rest) with
      | some _ => true
      | none => phoneSearchAux fuel rest

def phoneSearch (s : String) : Bool :=
  phoneSearchAux s.data.length s.data

/-! ## Role classification (`is_likely_role`) -/

/-- `is_likely_role` from the source. -/
def is_likely_role (text : String) (person_name : String := "") : Bool :=
  if text = "" then false
  else
    let t := pyStripChars [' ', '-', '|', '•', '·'] (collapseAllWs text)
    if t.data.length < 2 ∨ t.data.length > 110 then false
    else
      let tl := pyLowerStr t
      if tl ∈ JUNK_PHRASES then false
      else if emailSearch t ∨ phoneSearch t then false
      else if person_name ≠ "" ∧ roleCanon t = roleCanon person_name then false
      else
        let toks := (runsOf (fun c => isAsciiAlpha c ∨ isLatin1Letter c ∨ c = '\x27') tl.data).map String.mk
        toks.any (· ∈ ROLE_WORDS)

/-! ## URL helpers (`urlparse`, `norm_url`, `same_domain`) -/

structure UrlParts where
  scheme : String := ""
  netloc : String := ""
  path : String := ""
  query : String := ""
  fragment : String := ""
deriving DecidableEq

def isSchemeChar (c : Char) : Bool :=
  isAsciiAlpha c ∨ isAsciiDigit c ∨ c = '+' ∨ c = '-' ∨ c = '.'

/-- The subset of Python `urllib.parse.urlparse` this program relies on:
split off the fragment at the first `#`, recognise a `scheme:` prefix,
read a `//netloc` component up to the next `/`, `?` or `#`, and split the
query at the first `?`. -/
def pyUrlparse (u : String) : UrlParts :=
  let l := u.data
  let beforeFrag := l.takeWhile (· ≠ '#')
  let frag := (l.drop beforeFrag.length).drop 1
  let schemePart := beforeFrag.takeWhile (· ≠ ':')
  let hasScheme : Bool :=
    decide (schemePart.length < beforeFrag.length) &&
    (match schemePart with
     | c :: rest => isAsciiAlpha c && rest.all isSchemeChar
     | [] => false)
  let scheme := if hasScheme then String.mk (schemePart.map pyLowerChar) else ""
  let rest := if hasScheme then beforeFrag.drop (schemePart.length + 1) else beforeFrag
  match rest with
  | '/' :: '/' :: rest2 =>
    let netloc := rest2.takeWhile (fun c => c ≠ '/' ∧ c ≠ '?')
    let rest3 := rest2.drop netloc.length
    let path := rest3.takeWhile (· ≠ '?')
    let query := (rest3.drop path.length).drop 1
    { scheme := scheme, netloc := String.mk netloc, path := String.mk path,
      query := String.mk query, fragment := String.mk frag }
  | _ =>
    let path := rest.takeWhile (· ≠ '?')
    let query := (rest.drop path.length).drop 1
    { scheme := scheme, netloc := "", path := String.mk path,
      query := String.mk query, fragment := String.mk frag }

/-- Python `urlunparse` restricted to the components this program produces. -/
def pyUrlunparse (p : UrlParts) : String :=
  let url :=
    if p.netloc ≠ "" ∨ p.path.data.take 2 = ['/', '/'] then
      "//" ++ p.netloc ++ (if p.path ≠ "" ∧ p.path.data.head? ≠ some '/' then "/" ++ p.path else p.path)
    else p.path
  let url := if p.scheme ≠ "" then p.scheme ++ ":" ++ url else url
  let url := if p.query ≠ "" then url ++ "?" ++ p.query else url
  if p.fragment ≠ "" then url ++ "#" ++ p.fragment else url

/-- `norm_url` from the source: drop fragment and query, rebuild. -/
def norm_url (u : String) : String :=
  pyUrlunparse { pyUrlparse u with query := "", fragment := "" }

/-- `same_domain` from the source. -/
def same_domain (a b : String) : Bool :=
  pyLowerStr (pyUrlparse a).netloc = pyLowerStr (pyUrlparse b).netloc

/-! ## Stable insertion sort (Python `list.sort` / `sorted` are stable) -/

def insertOrd (le : α → α → Bool) (x : α) : List α → List α
  | [] => [x]
  | y :: ys => if le x y then x :: y :: ys else y :: insertOrd le x ys

def sortOrd (le : α → α → Bool) : List α → List α
  | [] => []
  | x :: xs => insertOrd le x (sortOrd le xs)

/-! ## `_normalize_phone_list` -/

/-- One step of the `by_digits` accumulation: entries are
`(digits, score, display)` in insertion order; a later candidate with the same
digits replaces the stored entry only on a strictly higher score. -/
def phoneListStep (by_digits : List (String × Nat × String)) (p : String) :
    List (String × Nat × String) :=
  let s := pyStrip (collapseAllWs p)
  let digs := String.mk (s.data.filter isAsciiDigit)
  if digs.data.length < 10 then by_digits
  else
    let score :=
      (if '(' ∈ s.data ∧ ')' ∈ s.data then 3 else 0) +
      (if ' ' ∈ s.data ∨ '-' ∈ s.data then 1 else 0) +
      (if s.data.length ≤ 18 then 1 else 0)
    match by_digits.find? (fun e => e.1 = digs) with
    | none => by_digits ++ [(digs, score, s)]
    | some e =>
      if score > e.2.1 then
        by_digits.map (fun e2 => if e2.1 = digs then (digs, score, s) else e2)
      else by_digits

/-- `_normalize_phone_list` from the source. -/
def normalize_phone_list (phone_candidates : List String) : List String :=
  let m := phone_candidates.foldl phoneListStep []
  ((sortOrd (fun a b => b.2.1 ≤ a.2.1) m).map (fun e => e.2.2)).take 3

/-! ## Person records -/

structure PersonRec where
  branch_seed_url : String := ""
  team_root_url : String := ""
  team_slug : String := ""
  team_name : String := ""
  team_page_url : String := ""
  contact_page_url : String := ""
  advisor_name : String := ""
  advisor_role : String := ""
  advisor_email : String := ""
  advisor_phone : String := ""
  advisor_address : String := ""
  advisor_profile_url : String := ""
  source : String := ""
  source_page_used : String := ""
deriving DecidableEq

/-! ## TD meet-the-team extraction (`td_extract_people_from_meet_page`) -/

/-- The list comprehension preparing `soup.stripped_strings`: keep strings
that are nonempty and not whitespace-only, strip them and replace nbsp. -/
def tdPrepareStrings (strings : List String) : List String :=
  (strings.filter (fun s => s ≠ "" ∧ pyStrip s ≠ "")).map
    (fun s => String.mk ((pyStrip s).data.map (fun c => if c = '\xA0' then ' ' else c)))

/-- Truncation at the first `TD_STOP_MARKERS` line. -/
def tdTrim (strings : List String) : List String :=
  strings.takeWhile (· ∉ TD_STOP_MARKERS)

def hasEmailLine (buf : List String) : Bool :=
  buf.any emailSearch

def looks_like_person_line (x : String) : Bool :=
  let nm := clean_person_name x
  is_valid_person_name nm ∧ pyLowerStr nm ∉ JUNK_PHRASES

/-- One step of the segmentation loop over the trimmed line sequence. The
accumulator is `(entries, cur)`. -/
def tdSegmentStep (acc : List (List String) × List String) (s : String) :
    List (List String) × List String :=
  let entries := acc.1
  let cur := acc.2
  let sl := pyLowerStr (pyStrip s)
  if sl ∈ TD_SOCIAL_MARKERS then
    (if cur ≠ [] then entries ++ [cur] else entries, [])
  else if pyLowerStr s = "photo" then (entries, cur)
  else if cur ≠ [] ∧ hasEmailLine cur ∧ looks_like_person_line s then
    (entries ++ [cur], [s])
  else (entries, cur ++ [s])

/-- Segmentation of the trimmed line sequence into per-person buffers. -/
def tdSegment (trimmed : List String) : List (List String) :=
  let acc := trimmed.foldl tdSegmentStep ([], [])
  if acc.2 ≠ [] then acc.1 ++ [acc.2] else acc.1

/-- The `strings` / `trimmed` / segmentation part of
`td_extract_people_from_meet_page`. -/
def tdSegments (strings : List String) : List (List String) :=
  tdSegment (tdTrim (tdPrepareStrings strings))

/-- Search for `(?:https?:)?//advisors\.td\.com/([A-Za-z0-9.\-_/]+)` and
return group 1. The optional scheme prefix does not change the group. -/
def isTdPathChar (c : Char) : Bool :=
  isAsciiAlpha c ∨ isAsciiDigit c ∨ c = '.' ∨ c = '-' ∨ c = '_' ∨ c = '/'

def tdProfileSearchAux (fuel : Nat) (l : List Char) : Option String :=
  match fuel with
  | 0 => none
  | fuel + 1 =>
    match l with
    | [] => none
    | _ :: rest =>
      if l.take 18 = "//advisors.td.com/".data then
        let g := (l.drop 18).takeWhile isTdPathChar
        if g.isEmpty then tdProfileSearchAux fuel rest else some (String.mk g)
      else tdProfileSearchAux fuel rest

def tdProfileSearch (s : String) : Option String :=
  tdProfileSearchAux s.data.length s.data

/-- The role-line scan inside a buffer: skip until the name line (which is
itself skipped whenever it reappears), then collect role-like lines until a
contact or social-marker line. -/
def tdRoleLines (name : String) : Bool → List String → List String
  | _, [] => []
  | hit, x :: rest =>
    if clean_person_name x = name then tdRoleLines name true rest
    else if ¬ hit then tdRoleLines name hit rest
    else if emailSearch x ∨ phoneSearch x ∨ pyLowerStr x ∈ TD_SOCIAL_MARKERS then []
    else if is_likely_role x name then x :: tdRoleLines name hit rest
    else tdRoleLines name hit rest

/-- Build one `PersonRec` from a segmented buffer (the per-buffer body of
`td_extract_people_from_meet_page`); `none` when no line is a valid name. -/
def tdPersonFromBuffer (buf : List String) : Option PersonRec :=
  match buf.find? (fun x => is_valid_person_name (clean_person_name x)) with
  | none => none
  | some x0 =>
    let name := clean_person_name x0
    let emails := dedupFirst (buf.flatMap emailFindAll)
    let phones := normalize_phone_list (buf.flatMap phoneFindAll)
    let prof :=
      match tdProfileSearch (joinSep " " buf) with
      | some g => norm_url ("https://advisors.td.com/" ++ pyStripChars ['/'] g)
      | none => ""
    let role := String.mk ((joinSep " / " (dedupFirst (tdRoleLines name false buf))).data.take 120)
    some { advisor_name := name
           advisor_role := role
           advisor_email := joinSep "; " (emails.take 3)
           advisor_phone := joinSep "; " (phones.take 3)
           advisor_address := ""
           advisor_profile_url := prof
           source := "td_meet_the_team" }

/-- The within-page de-duplication key at the end of
`td_extract_people_from_meet_page`. -/
def tdPageKey (p : PersonRec) : String :=
  let key := pyLowerStr p.advisor_profile_url
  if key ≠ "" then key
  else
    let key := pyLowerStr p.advisor_email
    if key ≠ "" then key
    else canon_name p.advisor_name ++ "|" ++ String.mk (p.advisor_phone.data.filter isAsciiDigit)

def dedupByKeyAux (key : PersonRec → String) (seen : List String) :
    List PersonRec → List PersonRec
  | [] => []
  | p :: ps =>
    if key p ∈ seen then dedupByKeyAux key seen ps
    else p :: dedupByKeyAux key (key p :: seen) ps

/-- `td_extract_people_from_meet_page` from the source, taking the page's
stripped text strings (the output of `soup.stripped_strings`) as input. -/
def td_extract_people_from_meet_page (strings : List String) : List PersonRec :=
  let entries := tdSegments strings
  let people := entries.filterMap tdPersonFromBuffer
  dedupByKeyAux tdPageKey [] people

/-! ## Reconciliation / global de-dupe (`post_process_directory`) -/

/-- `_first_email` from the source. -/
def first_email (email_field : String) : String :=
  let s := pyStrip email_field
  if s = "" then "" else pyLowerStr (pyStrip (takeBeforeSemicolon s))

/-- `_digits_phone` from the source. -/
def digits_phone (phone_field : String) : String :=
  let s := pyStrip phone_field
  if s = "" then "" else String.mk ((s.data.filter isAsciiDigit).take 15)

/-- The completeness score (`score_row`). -/
def score_row (r : PersonRec) : Nat :=
  (if pyStrip r.advisor_email ≠ "" then 1 else 0) +
  (if pyStrip r.advisor_phone ≠ "" then 1 else 0) +
  (if pyStrip r.advisor_address ≠ "" then 1 else 0) +
  (if pyStrip r.advisor_profile_url ≠ "" then 1 else 0) +
  (if is_likely_role (pyStrip r.advisor_role) r.advisor_name then 1 else 0)

/-- The global identity key (`person_key`): profile URL, else first e-mail,
else phone digits, else canonical name, each tagged with its signal kind. -/
def person_key (r : PersonRec) : String :=
  let prof := pyLowerStr (pyStrip r.advisor_profile_url)
  if prof ≠ "" then "p:" ++ prof
  else
    let em := first_email r.advisor_email
    if em ≠ "" then "e:" ++ em
    else
      let ph := digits_phone r.advisor_phone
      if ph ≠ "" then "t:" ++ ph
      else "n:" ++ canon_name r.advisor_name

/-- Selection of one merge column: the first value whose strip is nonempty,
else the base record's value (`vals[0] if vals else (base.get(col) or "")`). -/
def pickFirst (vals : List String) (base : String) : String :=
  match vals with
  | [] => base
  | v :: _ => v

/-- Merge one identity group (already in score order, base first). -/
def mergeGroup : List PersonRec → PersonRec
  | [] => {}
  | b :: rest =>
    let g := b :: rest
    let nm := b.advisor_name
    let team_slugs := (g.map (fun r => pyStrip r.team_slug)).filter (· ≠ "")
    let team_names := (g.map (fun r => pyStrip r.team_name)).filter (· ≠ "")
    let roleVals := ((g.map (fun r => r.advisor_role)).filter (fun v => pyStrip v ≠ "")).filter
      (fun v => is_likely_role v nm)
    { b with
      team_slug := joinSep "; " (dedupFirst team_slugs)
      team_name := joinSep "; " (dedupFirst team_names)
      advisor_role := pickFirst roleVals b.advisor_role
      advisor_email := pickFirst ((g.map (fun r => r.advisor_email)).filter (fun v => pyStrip v ≠ "")) b.advisor_email
      advisor_phone := pickFirst ((g.map (fun r => r.advisor_phone)).filter (fun v => pyStrip v ≠ "")) b.advisor_phone
      advisor_address := pickFirst ((g.map (fun r => r.advisor_address)).filter (fun v => pyStrip v ≠ "")) b.advisor_address
      advisor_profile_url := pickFirst ((g.map (fun r => r.advisor_profile_url)).filter (fun v => pyStrip v ≠ "")) b.advisor_profile_url }

/-- The name re-cleaning and re-validation stage of `post_process_directory`. -/
def clean_valid_records (df_out : List PersonRec) : List PersonRec :=
  (df_out.map (fun r => { r with advisor_name := clean_person_name r.advisor_name })).filter
    (fun r => is_valid_person_name r.advisor_name)

/-- The completeness-score sort (descending, stable) of
`post_process_directory`. -/
def score_sorted (df : List PersonRec) : List PersonRec :=
  sortOrd (fun a b => score_row b ≤ score_row a) df

/-- The grouping-and-merge stage of `post_process_directory`: group the
sorted records by `person_key` in order of first appearance
(`groupby(..., sort=False)`) and merge each group. -/
def merged_rows (sorted : List PersonRec) : List PersonRec :=
  ((dedupFirst (sorted.map person_key)).map
    (fun k => sorted.filter (fun r => person_key r = k))).map mergeGroup

/-- `post_process_directory` from the source: re-clean and re-validate names,
sort by completeness score, group by `person_key`, merge each group, and
optionally drop rows without contact info. -/
def post_process_directory (df_out : List PersonRec) (drop_no_contact : Bool := true) :
    List PersonRec :=
  let df := clean_valid_records df_out
  if df.isEmpty then []
  else
    let merged := merged_rows (score_sorted df)
    if drop_no_contact then
      merged.filter (fun r => pyStrip r.advisor_email ≠ "" ∨ pyStrip r.advisor_phone ≠ "")
    else merged

/-! ## `find_best_link` -/

/-- The candidate test of `find_best_link`: same domain, and the pattern
matches the visible text or the URL. -/
def linkQualifies (base_url : String) (pattern : String → Bool) (tu : String × String) : Bool :=
  same_domain tu.2 base_url ∧ (pattern tu.1 ∨ pattern tu.2)

/-- The sort key of `find_best_link`: `len(urlparse(x[1]).path)`. -/
def pathLenLe (a b : String × String) : Bool :=
  (pyUrlparse a.2).path.data.length ≤ (pyUrlparse b.2).path.data.length

/-- `find_best_link` from the source: filter to same-domain links whose text
or URL matches the pattern, sort by URL path length (stable), return the
first URL or the empty string. The compiled regex argument is modelled as a
predicate. -/
def find_best_link (links : List (String × String)) (base_url : String)
    (pattern : String → Bool) : String :=
  match sortOrd pathLenLe (links.filter (linkQualifies base_url pattern)) with
  | [] => ""
  | c :: _ => c.2

/-! ## `polite_get` retry loop -/

/-- The observable behaviour of one `polite_get` call: final result (an
`Except.error` models `raise`; the payload is the recorded `last_err`, which
starts as `None`), the number of attempts made, and the back-off sleeps
issued after failed attempts. -/
structure FetchOutcome (E V : Type) where
  result : Except (Option E) V
  attempts : Nat
  backoffs : List ℚ

/-- The back-off after failed attempt number `i` (0-based):
`time.sleep(1.25 * (attempt + 1))`. -/
def backoffDelay (i : Nat) : ℚ :=
  (5 / 4 : ℚ) * ((i : ℚ) + 1)

/-- The `for attempt in range(retries)` loop of `polite_get`, with the
outcome of the `SESSION.get` attempt number `i` modelled as `attempt_result i`. -/
def politeRetryGo (attempt_result : Nat → Except E V) :
    Nat → Nat → Option E → FetchOutcome E V
  | 0, _, last => { result := Except.error last, attempts := 0, backoffs := [] }
  | k + 1, i, _last =>
    match attempt_result i with
    | Except.ok v => { result := Except.ok v, attempts := 1, backoffs := [] }
    | Except.error e =>
      let o := politeRetryGo attempt_result k (i + 1) (some e)
      { result := o.result, attempts := o.attempts + 1, backoffs := backoffDelay i :: o.backoffs }

/-- `polite_get` from the source: consult the cache under the normalised URL;
on a miss run the retry loop. -/
def polite_get (cache : List (String × V)) (url : String)
    (attempt_result : Nat → Except E V) (retries : Nat := 3) : FetchOutcome E V :=
  match (cache.find? (fun e => e.1 = norm_url url)).map (fun e => e.2) with
  | some v => { result := Except.ok v, attempts := 0, backoffs := [] }
  | none => politeRetryGo attempt_result retries 0 none

/-! ## Discovery and build loops (error capture) -/

/-- The discovery loop (`for s in seeds: try ... except ...`): successful
frames are collected, a failure appends `{seed, error}` and the loop
continues. -/
def discovery_loop (f : String → Except String β) (seeds : List String) :
    List β × List (String × String) :=
  seeds.foldl
    (fun acc s =>
      match f s with
      | Except.ok d => (acc.1 ++ [d], acc.2)
      | Except.error e => (acc.1, acc.2 ++ [(s, e)]))
    ([], [])

structure BuildTarget where
  branch_seed_url : String := ""
  team_root_url : String := ""
  link_text : String := ""
  td_kind : String := ""
deriving DecidableEq

/-- The build-directory loop: each target's body appends rows on success; a
failure appends `{team_root_url, error}` and the loop continues. -/
def build_loop (g : BuildTarget → Except String (List ρ)) (targets : List BuildTarget) :
    List ρ × List (String × String) :=
  targets.foldl
    (fun acc t =>
      match g t with
      | Except.ok rows => (acc.1 ++ rows, acc.2)
      | Except.error e => (acc.1, acc.2 ++ [(t.team_root_url, e)]))
    ([], [])

/-! # Theorems -/

/-! ## General helper lemmas -/

theorem mk_eq_empty_iff (l : List Char) : String.mk l = "" ↔ l = [] := by
  constructor
  · intro h
    have h2 : l = ([] : List Char) := congrArg String.data h
    exact h2
  · intro h
    rw [h]

theorem pyLowerStr_eq_empty_iff (s : String) : pyLowerStr s = "" ↔ s = "" := by
  unfold pyLowerStr
  rw [mk_eq_empty_iff, List.map_eq_nil_iff]
  constructor
  · intro h
    have h2 : s = String.mk [] := congrArg String.mk h
    exact h2
  · intro h
    rw [h]

theorem takeWhile_append_all {p : α → Bool} (l₁ l₂ : List α) (h : ∀ x ∈ l₁, p x = true) :
    (l₁ ++ l₂).takeWhile p = l₁ ++ l₂.takeWhile p := by
  induction l₁ with
  | nil => simp
  | cons a l ih =>
    have ha : p a = true := h a (by simp)
    simp [List.takeWhile_cons, ha, ih (fun x hx => h x (by simp [hx]))]

/-! ## Claim C6: the name validator on the spec's acceptance/rejection suite -/

/-- C6: `is_valid_person_name` accepts "Marie-Claude St-Pierre" and
"Jean de La Fontaine", rejects "Contact Us", "Our Team", "123 Main St", and
rejects every input whose cleaned form has fewer than two whitespace-separated
tokens (in particular every single-token string). -/
theorem C6_name_validator :
    is_valid_person_name "Marie-Claude St-Pierre" = true ∧
    is_valid_person_name "Jean de La Fontaine" = true ∧
    is_valid_person_name "Contact Us" = false ∧
    is_valid_person_name "Our Team" = false ∧
    is_valid_person_name "123 Main St" = false ∧
    ∀ raw : String, (pySplit (clean_person_name raw)).length < 2 →
      is_valid_person_name raw = false := by
  refine ⟨by decide, by decide, by decide, by decide, by decide, ?_⟩
  intro raw h
  simp only [is_valid_person_name]
  split_ifs with h1 h2 h3 h4
  · rfl
  · rfl
  · rfl
  · rfl
  · exact absurd (Or.inl h) h3

/-- C6 witness: the single-token clause applied at "Advisor". -/
theorem C6_witness :
    (pySplit (clean_person_name "Advisor")).length < 2 ∧
    is_valid_person_name "Advisor" = false :=
  ⟨by decide, C6_name_validator.2.2.2.2.2 "Advisor" (by decide)⟩

/-! ## Claim C4: the role classifier and the person name -/

/-- C4 counterexample: for person name "Sarah Investment" the role text
"Investment" is ACCEPTED by `is_likely_role`, although its only token is a
subset of the name's tokens — the claimed subset-of-name-tokens rule does not
exist in the code. -/
theorem C4_counterexample :
    is_likely_role "Investment" "Sarah Investment" = true := by decide

/-- C4 amended: `is_likely_role` rejects a candidate only when its
canonicalised text equals the canonicalised person name exactly; a proper
sub-fragment of the name that is role vocabulary is accepted. -/
theorem C4_role_rejection :
    is_likely_role "Sarah Investment" "Sarah Investment" = false ∧
    is_likely_role "Investment" "Sarah Investment" = true := by decide

/-! ## Claim C10: the canonical dedup key `canon_name` -/

/-- C10 counterexample: accented letters are deleted, so "José" and "Jose" —
two spellings of one name differing only in the accent — get DIFFERENT
identity keys ("jos" vs "jose"), not the same key. -/
theorem C10_counterexample :
    canon_name "José" = "jos" ∧ canon_name "Jose" = "jose" ∧
    canon_name "José" ≠ canon_name "Jose" := by decide

/-- C10 amended: `canon_name` produces only ASCII lowercase letters; accented
letters are deleted rather than transliterated, so names differing only in
WHICH accent mark a letter carries share a key, while an accented name and
its ASCII transliteration do not; a fully non-ASCII name maps to "". -/
theorem C10_canon_ascii :
    (∀ raw : String, ∀ c ∈ (canon_name raw).data, 'a' ≤ c ∧ c ≤ 'z') ∧
    canon_name "Hélène" = canon_name "Hèlêne" ∧
    canon_name "Éàè" = "" := by
  refine ⟨?_, by decide, by decide⟩
  intro raw c hc
  unfold canon_name at hc
  have h2 := (List.mem_filter.mp hc).2
  exact of_decide_eq_true h2

/-- C10 witness: the ASCII-lowercase clause applied at "Jose" and its
character j. -/
theorem C10_witness :
    'j' ∈ (canon_name "Jose").data ∧ 'a' ≤ 'j' ∧ 'j' ≤ 'z' :=
  ⟨by decide, C10_canon_ascii.1 "Jose" 'j' (by decide)⟩

/-! ## Claim C2: merging within an identity group -/

/-- C2 counterexample: the merged role is NOT the first non-empty role value
across the score-sorted group — role values are additionally filtered through
the role classifier, and on filter exhaustion the base record's (empty) role
is kept. Here "zzz" is the only non-empty role in the group yet the merged
row's role is "". -/
theorem C2_counterexample :
    post_process_directory
      [{ advisor_name := "Jane Doe", advisor_email := "jane@x.com",
         advisor_phone := "514-555-1234", advisor_profile_url := "https://x.com/p" },
       { advisor_name := "Jane Doe", advisor_role := "zzz",
         advisor_profile_url := "https://x.com/p" }] false
    = [{ advisor_name := "Jane Doe", advisor_email := "jane@x.com",
         advisor_phone := "514-555-1234", advisor_profile_url := "https://x.com/p",
         advisor_role := "" }] ∧
    pyStrip "zzz" ≠ "" ∧ is_likely_role "zzz" "Jane Doe" = false := by decide

/-- C2 amended: two records with the same profile URL, one with an e-mail and
one with a phone, reconcile to exactly one row carrying both; e-mail, phone,
address and profile URL are each the first non-empty value across the
score-sorted group, while role additionally must pass the role classifier
(falling back to the base record's role). -/
theorem C2_merge_email_phone :
    post_process_directory
      [{ advisor_name := "Jane Doe", advisor_email := "jane@x.com",
         advisor_profile_url := "https://advisors.td.com/jane" },
       { advisor_name := "Jane Doe", advisor_phone := "514-555-1234",
         advisor_profile_url := "https://advisors.td.com/jane" }] false
    = [{ advisor_name := "Jane Doe", advisor_email := "jane@x.com",
         advisor_phone := "514-555-1234",
         advisor_profile_url := "https://advisors.td.com/jane" }] := by decide

/-! ## Claim C3: line segmentation of the TD meet-the-team extractor -/

/-- C3 counterexample: a buffer that contains a phone number (but no e-mail)
followed by a plausible person name is NOT split — the boundary test checks
for an e-mail only, so the claimed "email or phone" rule is false. -/
theorem C3_counterexample :
    tdSegments ["Jane Doe", "514-555-1234", "John Roe"]
      = [["Jane Doe", "514-555-1234", "John Roe"]] ∧
    phoneSearch "514-555-1234" = true ∧
    looks_like_person_line "John Roe" = true := by decide

/-- C3 amended: away from social-marker and "photo" lines, a new buffer
starts exactly when the current buffer contains an E-MAIL (a phone alone does
not split) and the next line is a plausible person name; the six-line example
still splits into exactly two buffers at "John Roe". -/
theorem C3_segmentation :
    (∀ (entries : List (List String)) (cur : List String) (s : String),
      cur ≠ [] →
      pyLowerStr (pyStrip s) ∉ TD_SOCIAL_MARKERS →
      pyLowerStr s ≠ "photo" →
      (tdSegmentStep (entries, cur) s = (entries ++ [cur], [s]) ↔
        hasEmailLine cur = true ∧ looks_like_person_line s = true)) ∧
    tdSegments ["Jane Doe", "Senior Advisor", "jane@x.com, 555-1234",
                "John Roe", "Associate", "john@x.com, 555-5678"]
      = [["Jane Doe", "Senior Advisor", "jane@x.com, 555-1234"],
         ["John Roe", "Associate", "john@x.com, 555-5678"]] := by
  refine ⟨?_, by decide⟩
  intro entries cur s hcur hsoc hphoto
  simp only [tdSegmentStep]
  rw [if_neg (by simpa using hsoc), if_neg (by simpa using hphoto)]
  by_cases hcond : hasEmailLine cur = true ∧ looks_like_person_line s = true
  · rw [if_pos ⟨hcur, hcond.1, hcond.2⟩]
    simp [hcond]
  · rw [if_neg (fun hc => hcond ⟨hc.2.1, hc.2.2⟩)]
    constructor
    · intro hEq
      exfalso
      have h1 : entries = entries ++ [cur] := congrArg Prod.fst hEq
      have h2 := congrArg List.length h1
      simp at h2
    · intro hc
      exact absurd hc hcond

/-- C3 witness: the boundary rule applied at a one-line buffer holding an
e-mail, with "John Roe" as the next line. -/
theorem C3_witness :
    tdSegmentStep ([], ["jane@x.com"]) "John Roe" = ([["jane@x.com"]], ["John Roe"]) :=
  (C3_segmentation.1 [] ["jane@x.com"] "John Roe" (by decide) (by decide) (by decide)).mpr
    ⟨by decide, by decide⟩

/-! ## Claim C5: stop-marker truncation -/

theorem tdPrepareStrings_append (l₁ l₂ : List String) :
    tdPrepareStrings (l₁ ++ l₂) = tdPrepareStrings l₁ ++ tdPrepareStrings l₂ := by
  simp [tdPrepareStrings, List.filter_append]

/-- C5: lines at or after a stop marker contribute to no produced
`PersonRec`: extracting from `pre ++ marker :: post` equals extracting from
`pre` alone, whenever `pre` itself contains no marker line. -/
theorem C5_stop_marker (pre post : List String) (m : String)
    (hm : m ∈ TD_STOP_MARKERS)
    (hpre : ∀ x ∈ tdPrepareStrings pre, x ∉ TD_STOP_MARKERS) :
    td_extract_people_from_meet_page (pre ++ m :: post) =
      td_extract_people_from_meet_page pre := by
  have hmCases : m = "Additional TD Specialists" ∨ m = "Spécialistes TD additionnels" ∨
      m = "Additional TD specialists" := by
    simpa [TD_STOP_MARKERS] using hm
  have hmKeep : tdPrepareStrings [m] = [m] := by
    rcases hmCases with rfl | rfl | rfl <;> decide
  have h1 : tdPrepareStrings (pre ++ m :: post)
      = tdPrepareStrings pre ++ m :: tdPrepareStrings post := by
    rw [show pre ++ m :: post = pre ++ [m] ++ post by simp,
        tdPrepareStrings_append, tdPrepareStrings_append, hmKeep]
    simp
  have hp : ∀ x ∈ tdPrepareStrings pre, (decide (x ∉ TD_STOP_MARKERS)) = true := by
    intro x hx
    simpa using hpre x hx
  have hmFail : (decide (m ∉ TD_STOP_MARKERS)) = false := by
    rw [decide_eq_false_iff_not]
    exact not_not_intro hm
  have h2 : tdTrim (tdPrepareStrings (pre ++ m :: post)) = tdPrepareStrings pre := by
    rw [h1]
    unfold tdTrim
    rw [takeWhile_append_all _ _ hp, List.takeWhile_cons, hmFail]
    simp
  have h3 : tdTrim (tdPrepareStrings pre) = tdPrepareStrings pre := by
    unfold tdTrim
    have := takeWhile_append_all (tdPrepareStrings pre) [] hp
    simpa using this
  unfold td_extract_people_from_meet_page tdSegments
  rw [h2, h3]

/-- C5 witness: a concrete page whose lines after "Additional TD Specialists"
are discarded. -/
theorem C5_witness :
    td_extract_people_from_meet_page
      ["Jane Doe", "jane@x.com", "Additional TD Specialists", "John Roe", "john@x.com"]
      = td_extract_people_from_meet_page ["Jane Doe", "jane@x.com"] :=
  C5_stop_marker ["Jane Doe", "jane@x.com"] ["John Roe", "john@x.com"]
    "Additional TD Specialists" (by decide) (by decide)

/-! ## Claim C7: bounded retries with linear backoff -/

/-- C7: for an uncached URL, `polite_get` makes at most 3 attempts, its
back-off sleeps are the linearly increasing prefix `1.25 * (i + 1)`, and if
all three attempts fail it raises the last error (it never produces a value
on total failure). -/
theorem C7_retry_bound {E V : Type} (cache : List (String × V)) (url : String)
    (f : Nat → Except E V)
    (h : cache.find? (fun e => e.1 = norm_url url) = none) :
    (polite_get cache url f 3).attempts ≤ 3 ∧
    (∀ e0 e1 e2, f 0 = Except.error e0 → f 1 = Except.error e1 → f 2 = Except.error e2 →
      (polite_get cache url f 3).result = Except.error (some e2)) ∧
    (∃ k ≤ 3, (polite_get cache url f 3).backoffs = (List.range k).map backoffDelay) := by
  have hgo : polite_get cache url f 3 = politeRetryGo f 3 0 none := by
    unfold polite_get
    rw [h]
    rfl
  rw [hgo]
  cases h0 : f 0 with
  | ok v0 =>
    refine ⟨?_, ?_, 0, by omega, ?_⟩ <;> simp [politeRetryGo, h0]
  | error e0 =>
    cases h1 : f 1 with
    | ok v1 =>
      refine ⟨?_, ?_, 1, by omega, ?_⟩ <;> simp [politeRetryGo, h0, h1, List.range_succ]
    | error e1 =>
      cases h2 : f 2 with
      | ok v2 =>
        refine ⟨?_, ?_, 2, by omega, ?_⟩ <;>
          simp [politeRetryGo, h0, h1, h2, List.range_succ]
      | error e2 =>
        refine ⟨?_, ?_, 3, by omega, ?_⟩ <;>
          simp [politeRetryGo, h0, h1, h2, List.range_succ]

/-- C7 witness: three failing attempts on an uncached URL. -/
theorem C7_witness :
    (polite_get [] "http://x.com/a" (fun _ => (Except.error "boom" : Except String Nat)) 3).attempts ≤ 3 ∧
    (polite_get [] "http://x.com/a" (fun _ => (Except.error "boom" : Except String Nat)) 3).result
      = Except.error (some "boom") :=
  ⟨(C7_retry_bound [] "http://x.com/a" (fun _ => Except.error "boom") rfl).1,
   (C7_retry_bound [] "http://x.com/a" (fun _ => Except.error "boom") rfl).2.1
     "boom" "boom" "boom" rfl rfl rfl⟩

/-! ## Claim C8: per-item error capture in the discovery and build loops -/

theorem discovery_loop_go {β : Type} (f : String → Except String β) :
    ∀ (seeds : List String) (a : List β) (b : List (String × String)),
      seeds.foldl
        (fun acc s =>
          match f s with
          | Except.ok d => (acc.1 ++ [d], acc.2)
          | Except.error e => (acc.1, acc.2 ++ [(s, e)]))
        (a, b) =
      (a ++ seeds.filterMap (fun s =>
          match f s with
          | Except.ok d => some d
          | Except.error _ => none),
       b ++ seeds.filterMap (fun s =>
          match f s with
          | Except.ok _ => none
          | Except.error e => some (s, e))) := by
  intro seeds
  induction seeds with
  | nil => intro a b; simp
  | cons s rest ih =>
    intro a b
    cases hf : f s with
    | ok d => simp [List.foldl_cons, hf, ih]
    | error e => simp [List.foldl_cons, hf, ih]

theorem build_loop_go {ρ : Type} (g : BuildTarget → Except String (List ρ)) :
    ∀ (targets : List BuildTarget) (a : List ρ) (b : List (String × String)),
      targets.foldl
        (fun acc t =>
          match g t with
          | Except.ok rows => (acc.1 ++ rows, acc.2)
          | Except.error e => (acc.1, acc.2 ++ [(t.team_root_url, e)]))
        (a, b) =
      (a ++ (targets.filterMap (fun t =>
          match g t with
          | Except.ok rows => some rows
          | Except.error _ => none)).flatten,
       b ++ targets.filterMap (fun t =>
          match g t with
          | Except.ok _ => none
          | Except.error e => some (t.team_root_url, e))) := by
  intro targets
  induction targets with
  | nil => intro a b; simp
  | cons t rest ih =>
    intro a b
    cases hg : g t with
    | ok rows => simp [List.foldl_cons, hg, ih]
    | error e => simp [List.foldl_cons, hg, ih]

/-- C8: in both the discovery loop and the build loop, every item is
processed: the successful results are exactly the ok-outcomes in order, and
every raised error is recorded as a `(url, message)` entry for its item — a
failing item neither aborts the remaining items nor is silently dropped. -/
theorem C8_error_capture {β ρ : Type} (f : String → Except String β)
    (seeds : List String) (g : BuildTarget → Except String (List ρ))
    (targets : List BuildTarget) :
    discovery_loop f seeds =
      (seeds.filterMap (fun s =>
          match f s with
          | Except.ok d => some d
          | Except.error _ => none),
       seeds.filterMap (fun s =>
          match f s with
          | Except.ok _ => none
          | Except.error e => some (s, e))) ∧
    build_loop g targets =
      ((targets.filterMap (fun t =>
          match g t with
          | Except.ok rows => some rows
          | Except.error _ => none)).flatten,
       targets.filterMap (fun t =>
          match g t with
          | Except.ok _ => none
          | Except.error e => some (t.team_root_url, e))) := by
  constructor
  · unfold discovery_loop
    simpa using discovery_loop_go f seeds [] []
  · unfold build_loop
    simpa using build_loop_go g targets [] []

/-! ## Sorting lemmas for `sortOrd` (stable insertion sort) -/

theorem mem_insertOrd (le : α → α → Bool) (x a : α) :
    ∀ l, a ∈ insertOrd le x l ↔ a = x ∨ a ∈ l := by
  intro l
  induction l with
  | nil => simp [insertOrd]
  | cons y ys ih =>
    by_cases hxy : le x y = true
    · simp [insertOrd, hxy]
    · simp only [insertOrd, if_neg hxy, List.mem_cons, ih]
      tauto

theorem length_insertOrd (le : α → α → Bool) (x : α) :
    ∀ l, (insertOrd le x l).length = l.length + 1 := by
  intro l
  induction l with
  | nil => rfl
  | cons y ys ih =>
    by_cases hxy : le x y = true
    · simp [insertOrd, hxy]
    · simp [insertOrd, hxy, ih]

theorem length_sortOrd (le : α → α → Bool) : ∀ l : List α, (sortOrd le l).length = l.length := by
  intro l
  induction l with
  | nil => rfl
  | cons x xs ih => simp [sortOrd, length_insertOrd, ih]

theorem mem_sortOrd (le : α → α → Bool) (a : α) : ∀ l, a ∈ sortOrd le l ↔ a ∈ l := by
  intro l
  induction l with
  | nil => simp [sortOrd]
  | cons x xs ih => simp [sortOrd, mem_insertOrd, ih]

/-- The head of the insertion sort is a minimum, for a reflexive, transitive,
total comparison. -/
theorem sortOrd_head_le (le : α → α → Bool)
    (hrefl : ∀ a, le a a = true)
    (htrans : ∀ a b c, le a b = true → le b c = true → le a c = true)
    (htot : ∀ a b, le a b = false → le b a = true) :
    ∀ (l : List α) (y : α) (ys : List α), sortOrd le l = y :: ys → ∀ a ∈ l, le y a = true := by
  intro l
  induction l with
  | nil => intro y ys h a ha; cases ha
  | cons x xs ih =>
    intro y ys h a ha
    have hIns : insertOrd le x (sortOrd le xs) = y :: ys := h
    cases hxs : sortOrd le xs with
    | nil =>
      rw [hxs] at hIns
      simp only [insertOrd] at hIns
      injection hIns with h1 h2
      have hxsnil : xs = [] := by
        have hlen := length_sortOrd le xs
        rw [hxs] at hlen
        exact List.eq_nil_of_length_eq_zero hlen.symm
      subst hxsnil
      rcases List.mem_cons.mp ha with h3 | h3
      · rw [h3, ← h1]
        exact hrefl x
      · cases h3
    | cons z zs =>
      rw [hxs] at hIns
      by_cases hxz : le x z = true
      · simp only [insertOrd, if_pos hxz] at hIns
        injection hIns with h1 h2
        rcases List.mem_cons.mp ha with h3 | h3
        · rw [h3, ← h1]
          exact hrefl x
        · exact htrans y z a (h1 ▸ hxz) (ih z zs hxs a h3)
      · simp only [insertOrd, if_neg hxz] at hIns
        injection hIns with h1 h2
        rcases List.mem_cons.mp ha with h3 | h3
        · rw [h3, ← h1]
          exact htot x z (by simpa using hxz)
        · exact h1 ▸ ih z zs hxs a h3

/-! ## Claim C9: `find_best_link` -/

/-- C9 counterexample: `find_best_link` performs no stop-link filtering — a
link whose visible text is boilerplate by the program's own `JUNK_PHRASES`
denylist ("Contact Us") is still returned. -/
theorem C9_counterexample :
    find_best_link [("Contact Us", "https://x.com/contact-us")] "https://x.com/"
      (fun s => "contact".data.IsInfix (pyLowerStr s).data) = "https://x.com/contact-us" ∧
    pyLowerStr "Contact Us" ∈ JUNK_PHRASES := by decide

/-- C9 amended: `find_best_link` returns a link from the input list that is
same-domain with the base URL and whose visible text or URL matches the topic
pattern, preferring a minimal URL path length, and returns "" when no link
qualifies. There is no navigation/legal/boilerplate exclusion. -/
theorem C9_best_link (links : List (String × String)) (base_url : String)
    (pattern : String → Bool) :
    (find_best_link links base_url pattern = "" ∧
      ∀ tu ∈ links, linkQualifies base_url pattern tu = false) ∨
    (∃ tu ∈ links,
      find_best_link links base_url pattern = tu.2 ∧
      linkQualifies base_url pattern tu = true ∧
      ∀ tu2 ∈ links, linkQualifies base_url pattern tu2 = true →
        (pyUrlparse tu.2).path.data.length ≤ (pyUrlparse tu2.2).path.data.length) := by
  cases hs : sortOrd pathLenLe (links.filter (linkQualifies base_url pattern)) with
  | nil =>
    left
    have hlen := length_sortOrd pathLenLe (links.filter (linkQualifies base_url pattern))
    rw [hs] at hlen
    have hnil : links.filter (linkQualifies base_url pattern) = [] :=
      List.eq_nil_of_length_eq_zero hlen.symm
    constructor
    · unfold find_best_link
      rw [hs]
    · intro tu htu
      by_contra hq
      have hq2 : linkQualifies base_url pattern tu = true := by
        cases hq3 : linkQualifies base_url pattern tu
        · exact absurd hq3 hq
        · rfl
      have : tu ∈ links.filter (linkQualifies base_url pattern) :=
        List.mem_filter.mpr ⟨htu, hq2⟩
      rw [hnil] at this
      cases this
  | cons c cs =>
    right
    have hcmem : c ∈ links.filter (linkQualifies base_url pattern) := by
      have hc : c ∈ sortOrd pathLenLe (links.filter (linkQualifies base_url pattern)) := by
        rw [hs]
        simp
      exact (mem_sortOrd pathLenLe c _).mp hc
    have hcfil := List.mem_filter.mp hcmem
    refine ⟨c, hcfil.1, ?_, hcfil.2, ?_⟩
    · unfold find_best_link
      rw [hs]
    · intro tu2 htu2 hq2
      have htu2c : tu2 ∈ links.filter (linkQualifies base_url pattern) :=
        List.mem_filter.mpr ⟨htu2, hq2⟩
      have hle := sortOrd_head_le pathLenLe
        (fun a => by simp [pathLenLe])
        (fun a b c2 hab hbc => by
          simp only [pathLenLe, decide_eq_true_eq] at hab hbc ⊢
          omega)
        (fun a b hab => by
          simp only [pathLenLe, decide_eq_false_iff_not] at hab
          simp only [pathLenLe, decide_eq_true_eq]
          omega)
        _ c cs hs tu2 htu2c
      simpa [pathLenLe] using hle

/-- C9 witness: the qualifying-link case of the characterisation at a
one-link list. -/
theorem C9_witness :
    find_best_link [("Our Team", "https://x.com/team")] "https://x.com/"
      (fun s => decide (s = "Our Team")) = "https://x.com/team" := by
  rcases C9_best_link [("Our Team", "https://x.com/team")] "https://x.com/"
      (fun s => decide (s = "Our Team")) with ⟨_, hall⟩ | ⟨tu, htu, hres, _⟩
  · have hfalse := hall ("Our Team", "https://x.com/team") (by simp)
    exact absurd hfalse (by decide)
  · have htueq : tu = ("Our Team", "https://x.com/team") := by simpa using htu
    rw [htueq] at hres
    exact hres

/-! ## Claim C1: reconciliation bound and identity-key uniqueness -/

/-- Injectivity of the tagged identity keys: equal keys with equal-length
tags have equal tags and equal payloads. -/
theorem append_inj_of_length {t₁ t₂ a b : String}
    (h : t₁ ++ a = t₂ ++ b) (hlen : t₁.data.length = t₂.data.length) :
    t₁ = t₂ ∧ a = b := by
  have hd : t₁.data ++ a.data = t₂.data ++ b.data := by
    have h2 := congrArg String.data h
    simpa [String.data_append] using h2
  rcases List.append_inj hd hlen with ⟨h1, h2⟩
  exact ⟨String.ext h1, String.ext h2⟩

/-- `person_key` falls in exactly one of the four signal cases. -/
theorem person_key_decode (r : PersonRec) :
    (pyLowerStr (pyStrip r.advisor_profile_url) ≠ "" ∧
      person_key r = "p:" ++ pyLowerStr (pyStrip r.advisor_profile_url)) ∨
    (pyLowerStr (pyStrip r.advisor_profile_url) = "" ∧ first_email r.advisor_email ≠ "" ∧
      person_key r = "e:" ++ first_email r.advisor_email) ∨
    (pyLowerStr (pyStrip r.advisor_profile_url) = "" ∧ first_email r.advisor_email = "" ∧
      digits_phone r.advisor_phone ≠ "" ∧
      person_key r = "t:" ++ digits_phone r.advisor_phone) ∨
    (pyLowerStr (pyStrip r.advisor_profile_url) = "" ∧ first_email r.advisor_email = "" ∧
      digits_phone r.advisor_phone = "" ∧
      person_key r = "n:" ++ canon_name r.advisor_name) := by
  by_cases h1 : pyLowerStr (pyStrip r.advisor_profile_url) = ""
  · by_cases h2 : first_email r.advisor_email = ""
    · by_cases h3 : digits_phone r.advisor_phone = ""
      · exact Or.inr (Or.inr (Or.inr ⟨h1, h2, h3, by simp [person_key, h1, h2, h3]⟩))
      · exact Or.inr (Or.inr (Or.inl ⟨h1, h2, h3, by simp [person_key, h1, h2, h3]⟩))
    · exact Or.inr (Or.inl ⟨h1, h2, by simp [person_key, h1, h2]⟩)
  · exact Or.inl ⟨h1, by simp [person_key, h1]⟩

/-- A record sharing its key with a profile-keyed record is profile-keyed
with the same normalised profile. -/
theorem same_key_p {r b : PersonRec}
    (hb : pyLowerStr (pyStrip b.advisor_profile_url) ≠ "")
    (h : person_key r = person_key b) :
    pyLowerStr (pyStrip r.advisor_profile_url) = pyLowerStr (pyStrip b.advisor_profile_url) := by
  have hkb : person_key b = "p:" ++ pyLowerStr (pyStrip b.advisor_profile_url) := by
    simp [person_key, hb]
  rcases person_key_decode r with ⟨_, hkr⟩ | ⟨_, _, hkr⟩ | ⟨_, _, _, hkr⟩ | ⟨_, _, _, hkr⟩
  all_goals rw [hkr, hkb] at h
  · exact (append_inj_of_length h (by decide)).2
  · exact absurd (append_inj_of_length h (by decide)).1 (by decide)
  · exact absurd (append_inj_of_length h (by decide)).1 (by decide)
  · exact absurd (append_inj_of_length h (by decide)).1 (by decide)

/-- A record sharing its key with an e-mail-keyed record has empty profile
signal and the same first e-mail. -/
theorem same_key_e {r b : PersonRec}
    (hb1 : pyLowerStr (pyStrip b.advisor_profile_url) = "")
    (hb2 : first_email b.advisor_email ≠ "")
    (h : person_key r = person_key b) :
    pyLowerStr (pyStrip r.advisor_profile_url) = "" ∧
      first_email r.advisor_email = first_email b.advisor_email := by
  have hkb : person_key b = "e:" ++ first_email b.advisor_email := by
    simp [person_key, hb1, hb2]
  rcases person_key_decode r with ⟨_, hkr⟩ | ⟨hr1, _, hkr⟩ | ⟨_, _, _, hkr⟩ | ⟨_, _, _, hkr⟩
  all_goals rw [hkr, hkb] at h
  · exact absurd (append_inj_of_length h (by decide)).1 (by decide)
  · exact ⟨hr1, (append_inj_of_length h (by decide)).2⟩
  · exact absurd (append_inj_of_length h (by decide)).1 (by decide)
  · exact absurd (append_inj_of_length h (by decide)).1 (by decide)

/-- A record sharing its key with a phone-keyed record has empty profile and
e-mail signals and the same phone digits. -/
theorem same_key_t {r b : PersonRec}
    (hb1 : pyLowerStr (pyStrip b.advisor_profile_url) = "")
    (hb2 : first_email b.advisor_email = "")
    (hb3 : digits_phone b.advisor_phone ≠ "")
    (h : person_key r = person_key b) :
    pyLowerStr (pyStrip r.advisor_profile_url) = "" ∧
      first_email r.advisor_email = "" ∧
      digits_phone r.advisor_phone = digits_phone b.advisor_phone := by
  have hkb : person_key b = "t:" ++ digits_phone b.advisor_phone := by
    simp [person_key, hb1, hb2, hb3]
  rcases person_key_decode r with ⟨_, hkr⟩ | ⟨_, _, hkr⟩ | ⟨hr1, hr2, _, hkr⟩ | ⟨_, _, _, hkr⟩
  all_goals rw [hkr, hkb] at h
  · exact absurd (append_inj_of_length h (by decide)).1 (by decide)
  · exact absurd (append_inj_of_length h (by decide)).1 (by decide)
  · exact ⟨hr1, hr2, (append_inj_of_length h (by decide)).2⟩
  · exact absurd (append_inj_of_length h (by decide)).1 (by decide)

/-- A record sharing its key with a name-keyed record has all three contact
signals empty. -/
theorem same_key_n {r b : PersonRec}
    (hb1 : pyLowerStr (pyStrip b.advisor_profile_url) = "")
    (hb2 : first_email b.advisor_email = "")
    (hb3 : digits_phone b.advisor_phone = "")
    (h : person_key r = person_key b) :
    pyLowerStr (pyStrip r.advisor_profile_url) = "" ∧
      first_email r.advisor_email = "" ∧
      digits_phone r.advisor_phone = "" := by
  have hkb : person_key b = "n:" ++ canon_name b.advisor_name := by
    simp [person_key, hb1, hb2, hb3]
  rcases person_key_decode r with ⟨_, hkr⟩ | ⟨_, _, hkr⟩ | ⟨_, _, _, hkr⟩ | ⟨hr1, hr2, hr3, _⟩
  · rw [hkr, hkb] at h
    exact absurd (append_inj_of_length h (by decide)).1 (by decide)
  · rw [hkr, hkb] at h
    exact absurd (append_inj_of_length h (by decide)).1 (by decide)
  · rw [hkr, hkb] at h
    exact absurd (append_inj_of_length h (by decide)).1 (by decide)
  · exact ⟨hr1, hr2, hr3⟩

/-- A column selection either keeps the base value (empty filter) or picks
some group member's value with non-blank strip. -/
theorem pickFirst_filterMap_cases (f : PersonRec → String) (g : List PersonRec) (base : String) :
    ((g.map f).filter (fun v => pyStrip v ≠ "") = [] ∧
      pickFirst ((g.map f).filter (fun v => pyStrip v ≠ "")) base = base) ∨
    (∃ r ∈ g, pyStrip (f r) ≠ "" ∧
      pickFirst ((g.map f).filter (fun v => pyStrip v ≠ "")) base = f r) := by
  cases hf : (g.map f).filter (fun v => pyStrip v ≠ "") with
  | nil =>
    left
    exact ⟨rfl, rfl⟩
  | cons v vs =>
    right
    have hv : v ∈ (g.map f).filter (fun v => pyStrip v ≠ "") := by
      rw [hf]
      simp
    have hv2 := List.mem_filter.mp hv
    rcases List.mem_map.mp hv2.1 with ⟨r, hr, hfr⟩
    refine ⟨r, hr, ?_, ?_⟩
    · rw [hfr]
      simpa using hv2.2
    · exact hfr.symm

/-- If every group member's value strips to blank, the column filter is
empty. -/
theorem filter_strip_empty (f : PersonRec → String) (g : List PersonRec)
    (h : ∀ r ∈ g, pyStrip (f r) = "") :
    (g.map f).filter (fun v => pyStrip v ≠ "") = [] := by
  rw [List.filter_eq_nil_iff]
  intro v hv
  rcases List.mem_map.mp hv with ⟨r, hr, rfl⟩
  simp [h r hr]

/-- Merging an identity group preserves the group's identity key. -/
theorem person_key_mergeGroup (b : PersonRec) (rest : List PersonRec)
    (H : ∀ r ∈ b :: rest, person_key r = person_key b) :
    person_key (mergeGroup (b :: rest)) = person_key b := by
  have hprofEq : (mergeGroup (b :: rest)).advisor_profile_url =
      pickFirst (((b :: rest).map (fun r => r.advisor_profile_url)).filter
        (fun v => pyStrip v ≠ "")) b.advisor_profile_url := rfl
  have hemailEq : (mergeGroup (b :: rest)).advisor_email =
      pickFirst (((b :: rest).map (fun r => r.advisor_email)).filter
        (fun v => pyStrip v ≠ "")) b.advisor_email := rfl
  have hphoneEq : (mergeGroup (b :: rest)).advisor_phone =
      pickFirst (((b :: rest).map (fun r => r.advisor_phone)).filter
        (fun v => pyStrip v ≠ "")) b.advisor_phone := rfl
  have hnameEq : (mergeGroup (b :: rest)).advisor_name = b.advisor_name := rfl
  by_cases hbp : pyLowerStr (pyStrip b.advisor_profile_url) = ""
  case neg =>
    -- profile-keyed group
    rcases pickFirst_filterMap_cases (fun r => r.advisor_profile_url) (b :: rest)
        b.advisor_profile_url with ⟨hnil, _⟩ | ⟨r, hr, _, hpick⟩
    · exfalso
      have hmem : b.advisor_profile_url ∈ (b :: rest).map (fun r => r.advisor_profile_url) :=
        List.mem_map_of_mem _ (by simp)
      have hcontra := List.filter_eq_nil_iff.mp hnil _ hmem
      have hbs : pyStrip b.advisor_profile_url ≠ "" := by
        intro hh
        exact hbp (by rw [hh]; rfl)
      simp [hbs] at hcontra
    · have hflu : pyLowerStr (pyStrip r.advisor_profile_url)
          = pyLowerStr (pyStrip b.advisor_profile_url) := same_key_p hbp (H r hr)
      have hm : pyLowerStr (pyStrip (mergeGroup (b :: rest)).advisor_profile_url)
          = pyLowerStr (pyStrip b.advisor_profile_url) := by
        rw [hprofEq, hpick, hflu]
      have hmp : pyLowerStr (pyStrip (mergeGroup (b :: rest)).advisor_profile_url) ≠ "" := by
        rw [hm]
        exact hbp
      have h1 : person_key (mergeGroup (b :: rest))
          = "p:" ++ pyLowerStr (pyStrip (mergeGroup (b :: rest)).advisor_profile_url) := by
        simp [person_key, hmp]
      have h2 : person_key b = "p:" ++ pyLowerStr (pyStrip b.advisor_profile_url) := by
        simp [person_key, hbp]
      rw [h1, h2, hm]
  case pos =>
  have hmembers_p : ∀ r ∈ b :: rest, pyStrip r.advisor_profile_url = "" → True := fun _ _ _ => trivial
  by_cases hbe : first_email b.advisor_email = ""
  case neg =>
    -- e-mail-keyed group
    have hmem : ∀ r ∈ b :: rest, pyLowerStr (pyStrip r.advisor_profile_url) = "" ∧
        first_email r.advisor_email = first_email b.advisor_email :=
      fun r hr => same_key_e hbp hbe (H r hr)
    have hprofNil : ((b :: rest).map (fun r => r.advisor_profile_url)).filter
        (fun v => pyStrip v ≠ "") = [] := by
      apply filter_strip_empty
      intro r hr
      exact (pyLowerStr_eq_empty_iff _).mp (hmem r hr).1
    have hmprof : pyLowerStr (pyStrip (mergeGroup (b :: rest)).advisor_profile_url) = "" := by
      rw [hprofEq, hprofNil]
      exact hbp
    have hmfe : first_email (mergeGroup (b :: rest)).advisor_email
        = first_email b.advisor_email := by
      rcases pickFirst_filterMap_cases (fun r => r.advisor_email) (b :: rest)
          b.advisor_email with ⟨_, hpick⟩ | ⟨r, hr, _, hpick⟩
      · rw [hemailEq, hpick]
      · rw [hemailEq, hpick]
        exact (hmem r hr).2
    have h1 : person_key (mergeGroup (b :: rest)) = "e:" ++ first_email b.advisor_email := by
      simp [person_key, hmprof, hmfe, hbe]
    have h2 : person_key b = "e:" ++ first_email b.advisor_email := by
      simp [person_key, hbp, hbe]
    rw [h1, h2]
  case pos =>
  by_cases hbt : digits_phone b.advisor_phone = ""
  case neg =>
    -- phone-keyed group
    have hmem : ∀ r ∈ b :: rest, pyLowerStr (pyStrip r.advisor_profile_url) = "" ∧
        first_email r.advisor_email = "" ∧
        digits_phone r.advisor_phone = digits_phone b.advisor_phone :=
      fun r hr => same_key_t hbp hbe hbt (H r hr)
    have hprofNil : ((b :: rest).map (fun r => r.advisor_profile_url)).filter
        (fun v => pyStrip v ≠ "") = [] := by
      apply filter_strip_empty
      intro r hr
      exact (pyLowerStr_eq_empty_iff _).mp (hmem r hr).1
    have hmprof : pyLowerStr (pyStrip (mergeGroup (b :: rest)).advisor_profile_url) = "" := by
      rw [hprofEq, hprofNil]
      exact hbp
    have hmfe : first_email (mergeGroup (b :: rest)).advisor_email = "" := by
      rcases pickFirst_filterMap_cases (fun r => r.advisor_email) (b :: rest)
          b.advisor_email with ⟨_, hpick⟩ | ⟨r, hr, _, hpick⟩
      · rw [hemailEq, hpick]
        exact hbe
      · rw [hemailEq, hpick]
        exact (hmem r hr).2.1
    have hmdp : digits_phone (mergeGroup (b :: rest)).advisor_phone
        = digits_phone b.advisor_phone := by
      rcases pickFirst_filterMap_cases (fun r => r.advisor_phone) (b :: rest)
          b.advisor_phone with ⟨_, hpick⟩ | ⟨r, hr, _, hpick⟩
      · rw [hphoneEq, hpick]
      · rw [hphoneEq, hpick]
        exact (hmem r hr).2.2
    have h1 : person_key (mergeGroup (b :: rest)) = "t:" ++ digits_phone b.advisor_phone := by
      simp [person_key, hmprof, hmfe, hmdp, hbt]
    have h2 : person_key b = "t:" ++ digits_phone b.advisor_phone := by
      simp [person_key, hbp, hbe, hbt]
    rw [h1, h2]
  case pos =>
    -- name-keyed group
    have hmem : ∀ r ∈ b :: rest, pyLowerStr (pyStrip r.advisor_profile_url) = "" ∧
        first_email r.advisor_email = "" ∧ digits_phone r.advisor_phone = "" :=
      fun r hr => same_key_n hbp hbe hbt (H r hr)
    have hprofNil : ((b :: rest).map (fun r => r.advisor_profile_url)).filter
        (fun v => pyStrip v ≠ "") = [] := by
      apply filter_strip_empty
      intro r hr
      exact (pyLowerStr_eq_empty_iff _).mp (hmem r hr).1
    have hmprof : pyLowerStr (pyStrip (mergeGroup (b :: rest)).advisor_profile_url) = "" := by
      rw [hprofEq, hprofNil]
      exact hbp
    have hmfe : first_email (mergeGroup (b :: rest)).advisor_email = "" := by
      rcases pickFirst_filterMap_cases (fun r => r.advisor_email) (b :: rest)
          b.advisor_email with ⟨_, hpick⟩ | ⟨r, hr, _, hpick⟩
      · rw [hemailEq, hpick]
        exact hbe
      · rw [hemailEq, hpick]
        exact (hmem r hr).2.1
    have hmdp : digits_phone (mergeGroup (b :: rest)).advisor_phone = "" := by
      rcases pickFirst_filterMap_cases (fun r => r.advisor_phone) (b :: rest)
          b.advisor_phone with ⟨_, hpick⟩ | ⟨r, hr, _, hpick⟩
      · rw [hphoneEq, hpick]
        exact hbt
      · rw [hphoneEq, hpick]
        exact (hmem r hr).2.2
    have h1 : person_key (mergeGroup (b :: rest))
        = "n:" ++ canon_name (mergeGroup (b :: rest)).advisor_name := by
      simp [person_key, hmprof, hmfe, hmdp]
    have h2 : person_key b = "n:" ++ canon_name b.advisor_name := by
      simp [person_key, hbp, hbe, hbt]
    rw [h1, h2, hnameEq]

theorem mem_of_dedupFirstAux [DecidableEq α] :
    ∀ (seen : List α) (l : List α) (x : α), x ∈ dedupFirstAux seen l → x ∈ l ∧ x ∉ seen := by
  intro seen l
  induction l generalizing seen with
  | nil => intro x hx; cases hx
  | cons a as ih =>
    intro x hx
    by_cases ha : a ∈ seen
    · simp only [dedupFirstAux, if_pos ha] at hx
      rcases ih seen x hx with ⟨h1, h2⟩
      exact ⟨by simp [h1], h2⟩
    · simp only [dedupFirstAux, if_neg ha] at hx
      rcases List.mem_cons.mp hx with rfl | hx2
      · exact ⟨by simp, ha⟩
      · rcases ih (a :: seen) x hx2 with ⟨h1, h2⟩
        refine ⟨by simp [h1], fun hc => h2 (by simp [hc])⟩

theorem nodup_dedupFirstAux [DecidableEq α] :
    ∀ (seen l : List α), (dedupFirstAux seen l).Nodup := by
  intro seen l
  induction l generalizing seen with
  | nil => simp [dedupFirstAux]
  | cons a as ih =>
    by_cases ha : a ∈ seen
    · simp only [dedupFirstAux, if_pos ha]
      exact ih seen
    · simp only [dedupFirstAux, if_neg ha]
      refine List.nodup_cons.mpr ⟨?_, ih (a :: seen)⟩
      intro hmem
      exact (mem_of_dedupFirstAux (a :: seen) as a hmem).2 (by simp)

theorem length_dedupFirstAux [DecidableEq α] :
    ∀ (seen l : List α), (dedupFirstAux seen l).length ≤ l.length := by
  intro seen l
  induction l generalizing seen with
  | nil => simp [dedupFirstAux]
  | cons a as ih =>
    by_cases ha : a ∈ seen
    · simp only [dedupFirstAux, if_pos ha, List.length_cons]
      exact Nat.le_succ_of_le (ih seen)
    · simp only [dedupFirstAux, if_neg ha, List.length_cons]
      exact Nat.succ_le_succ (ih (a :: seen))

/-- The key of the merged row of each first-appearance group is that group's
key. -/
theorem merged_group_key (l : List PersonRec) (k : String)
    (hk : k ∈ dedupFirst (l.map person_key)) :
    person_key (mergeGroup (l.filter (fun r => person_key r = k))) = k := by
  have hk2 := mem_of_dedupFirstAux [] _ k hk
  rcases List.mem_map.mp hk2.1 with ⟨r0, hr0, hr0k⟩
  cases hfil : l.filter (fun r => person_key r = k) with
  | nil =>
    exfalso
    have hr0f : r0 ∈ l.filter (fun r => person_key r = k) :=
      List.mem_filter.mpr ⟨hr0, by simp [hr0k]⟩
    rw [hfil] at hr0f
    cases hr0f
  | cons b grest =>
    have hbk : person_key b = k := by
      have hb : b ∈ l.filter (fun r => person_key r = k) := by
        rw [hfil]
        simp
      have := (List.mem_filter.mp hb).2
      simpa using this
    have hall : ∀ r ∈ b :: grest, person_key r = person_key b := by
      intro r hr
      rw [← hfil] at hr
      have := (List.mem_filter.mp hr).2
      rw [hbk]
      simpa using this
    rw [person_key_mergeGroup b grest hall, hbk]

/-- Length and pairwise key-distinctness of the merged rows built from any
record list. -/
theorem merged_rows_spec (l : List PersonRec) :
    (merged_rows l).length ≤ l.length ∧
    (merged_rows l).Pairwise (fun a b => person_key a ≠ person_key b) := by
  unfold merged_rows
  constructor
  · rw [List.length_map, List.length_map]
    calc (dedupFirst (l.map person_key)).length
        ≤ (l.map person_key).length := length_dedupFirstAux [] _
      _ = l.length := List.length_map _ _
  · have hmap : ((((dedupFirst (l.map person_key)).map
        (fun k => l.filter (fun r => person_key r = k))).map mergeGroup).map person_key)
        = dedupFirst (l.map person_key) := by
      rw [List.map_map, List.map_map]
      have hcongr : ∀ k ∈ dedupFirst (l.map person_key),
          ((person_key ∘ mergeGroup) ∘ fun k => l.filter (fun r => person_key r = k)) k
            = id k := by
        intro k hk
        exact merged_group_key l k hk
      rw [List.map_congr_left hcongr, List.map_id]
    have hnd : (dedupFirst (l.map person_key)).Nodup := nodup_dedupFirstAux [] _
    rw [← hmap] at hnd
    exact List.pairwise_map.mp hnd

/-- C1: reconciliation produces at most as many rows as input records, and no
two output rows share an identity key (profile URL, else first e-mail, else
phone digits, else canonical name). -/
theorem C1_reconciliation_invariant (df : List PersonRec) (dnc : Bool) :
    (post_process_directory df dnc).length ≤ df.length ∧
    (post_process_directory df dnc).Pairwise (fun a b => person_key a ≠ person_key b) := by
  have hlen : (score_sorted (clean_valid_records df)).length ≤ df.length := by
    unfold score_sorted clean_valid_records
    rw [length_sortOrd]
    exact le_trans (List.length_filter_le _ _) (le_of_eq (List.length_map _ _))
  have hspec := merged_rows_spec (score_sorted (clean_valid_records df))
  have hMdf : (merged_rows (score_sorted (clean_valid_records df))).length ≤ df.length :=
    le_trans hspec.1 hlen
  simp only [post_process_directory]
  split_ifs with hE hD
  · simp
  · exact ⟨le_trans (List.length_filter_le _ _) hMdf,
      List.Pairwise.sublist (List.filter_sublist _) hspec.2⟩
  · exact ⟨hMdf, hspec.2⟩

end DataCollector
